import Mathlib

/-!
Shallow embedding of the eos-midi-bridge core (src/config.rs and
src/midi_osc_logic.rs).  Rust `u8`/`u16` values are modelled as `Nat`
with explicit `% 256` where wrapping matters; `f32` values are modelled
as exact rationals.  Fallible operations return `Option`; a Rust panic
(out-of-bounds array index) is modelled by an explicit `panicked` flag.
-/

/-- `config.rs`: `enum MidiEventType { PitchBend, NoteOn, ControlChange }`. -/
inductive MidiEventType
  | PitchBend
  | NoteOn
  | ControlChange
deriving DecidableEq, Repr

/-- `config.rs`: `struct MidiOscMapping`. `data_number` is a `u8`. -/
structure MidiOscMapping where
  event_type : MidiEventType
  data_number : Nat
  osc_address : String
  fixed_osc_value : Option ℚ
deriving DecidableEq, Repr

/-- `rosc::OscType`, restricted to the argument kinds the bridge examines. -/
inductive OscValue
  | float (v : ℚ)
  | str (s : String)
deriving DecidableEq, Repr

/-- `rosc::OscMessage`: an address pattern plus typed arguments. -/
structure OscMessage where
  addr : String
  args : List OscValue
deriving DecidableEq, Repr

/-- `rosc::OscPacket`: a message or a recursively nested bundle. -/
inductive OscPacket
  | message (m : OscMessage)
  | bundle (content : List OscPacket)

/-- `midi_osc_logic.rs`: `enum BridgeEvent`. -/
inductive BridgeEvent
  | Log (text : String)
  | FaderUpdate (idx : Nat) (value : ℚ)
  | LabelUpdate (idx : Nat) (text : String)
  | MidiCaptured (etype : MidiEventType) (dnum : Nat) (raw : Nat × Nat × Nat)
  | ConnectionHeartbeat
deriving DecidableEq, Repr

/-- `config.rs`: `float_to_pitch_bend(value) = (value.clamp(0.0,1.0) * 16383.0).round() as u16`.
`clamp(0,1)` is "if below 0 then 0, if above 1 then 1, else the value",
and `.round()` rounds half away from zero, which on the clamped
nonnegative range is `fun x => Rat.floor (x + 1/2)`. -/
def float_to_pitch_bend (value : ℚ) : Nat :=
  (Rat.floor ((if value < 0 then 0 else if 1 < value then 1 else value) * 16383 + 1/2)).toNat

/-- `midi_osc_logic.rs` line 140-144: first mapping whose `(event_type,
data_number)` matches the decoded MIDI event (`Iterator::find`). -/
def resolve_control (mappings : List MidiOscMapping)
    (etype : MidiEventType) (dnum : Nat) : Option MidiOscMapping :=
  mappings.find? (fun map => map.event_type == etype && map.data_number == dnum)

/-- Splitting a natural number into its low 7 bits and the rest and
recombining them is the identity. -/
lemma shift7_and_recombine (n : ℕ) : (n >>> 7) * 128 + (n &&& 0x7F) = n := by
  have ha : n >>> 7 = n / 2 ^ 7 := Nat.shiftRight_eq_div_pow n 7
  have hb := Nat.and_pow_two_sub_one_eq_mod n 7
  norm_num at ha hb
  omega

/-- `Rat.floor` agrees with the `Int.floor` of the `FloorRing ℚ`
instance. -/
lemma ratFloor_eq_intFloor (a : ℚ) : Rat.floor a = ⌊a⌋ := by
  rw [Rat.floor_def' a, Rat.floor_def]

/-- C5: Pitch-bend codec contract.  `float_to_pitch_bend` clamps: every
input below 0 encodes to 0 and every input above 1 encodes to 16383;
and for inputs in [0,1], decoding the encoded 14-bit value as
`(msb*128 + lsb)/16383` (msb = bits 7..13, lsb = bits 0..6) lands
within 1/16383 of the input. -/
theorem pitch_bend_codec (v : ℚ) :
    (v < 0 → float_to_pitch_bend v = 0) ∧
    (1 < v → float_to_pitch_bend v = 16383) ∧
    (0 ≤ v → v ≤ 1 →
      |(((float_to_pitch_bend v >>> 7 : ℕ) : ℚ) * 128
          + ((float_to_pitch_bend v &&& 0x7F : ℕ) : ℚ))
          / 16383 - v| ≤ 1 / 16383) := by
  refine ⟨?_, ?_, ?_⟩
  · intro hv
    rw [float_to_pitch_bend, if_pos hv, ratFloor_eq_intFloor]
    have hf : ⌊(0 * 16383 + 1/2 : ℚ)⌋ = 0 := by
      rw [Int.floor_eq_iff]
      norm_num
    rw [hf]
    rfl
  · intro hv
    rw [float_to_pitch_bend, if_neg (by linarith), if_pos hv, ratFloor_eq_intFloor]
    have hf : ⌊(1 * 16383 + 1/2 : ℚ)⌋ = 16383 := by
      rw [Int.floor_eq_iff]
      norm_num
    rw [hf]
    rfl
  · intro h0 h1
    have hr0 : 0 ≤ round (v * 16383) := by
      rw [round_eq]
      exact Int.le_floor.mpr (by push_cast; nlinarith)
    have hpb : float_to_pitch_bend v = (round (v * 16383)).toNat := by
      rw [float_to_pitch_bend, if_neg (not_lt.mpr h0), if_neg (not_lt.mpr h1),
        ratFloor_eq_intFloor, ← round_eq]
    rw [hpb]
    have hexp : (((round (v * 16383)).toNat >>> 7 : ℕ) : ℚ) * 128
        + (((round (v * 16383)).toNat &&& 0x7F : ℕ) : ℚ)
        = (((round (v * 16383)).toNat : ℕ) : ℚ) := by
      exact_mod_cast shift7_and_recombine (round (v * 16383)).toNat
    rw [hexp]
    have hcast : (((round (v * 16383)).toNat : ℕ) : ℚ) = ((round (v * 16383) : ℤ) : ℚ) := by
      exact_mod_cast Int.toNat_of_nonneg hr0
    rw [hcast]
    have habs : |v * 16383 - (round (v * 16383) : ℚ)| ≤ 1 / 2 := abs_sub_round (v * 16383)
    rw [abs_sub_comm] at habs
    have hform : ((round (v * 16383) : ℤ) : ℚ) / 16383 - v
        = (((round (v * 16383) : ℤ) : ℚ) - v * 16383) / 16383 := by
      ring
    rw [hform, abs_div]
    have hden : |(16383 : ℚ)| = 16383 := by norm_num
    rw [hden]
    rw [div_le_div_iff₀ (by norm_num) (by norm_num)]
    nlinarith [habs]

/-- Witness for C5: the codec contract evaluated at the concrete inputs
-1 (clamped to 0), 2 (clamped to 16383) and 1/2 (round trip within
1/16383). -/
theorem pitch_bend_codec_witness :
    float_to_pitch_bend (-1) = 0 ∧
    float_to_pitch_bend 2 = 16383 ∧
    |(((float_to_pitch_bend (1/2) >>> 7 : ℕ) : ℚ) * 128
        + ((float_to_pitch_bend (1/2) &&& 0x7F : ℕ) : ℚ))
        / 16383 - (1/2 : ℚ)| ≤ 1 / 16383 :=
  ⟨(pitch_bend_codec (-1)).1 (by norm_num),
   (pitch_bend_codec 2).2.1 (by norm_num),
   (pitch_bend_codec (1/2)).2.2 (by norm_num) (by norm_num)⟩

/-- `str::starts_with` on the underlying character sequences. -/
def startsWithCh : List Char → List Char → Bool
  | _, [] => true
  | [], _ :: _ => false
  | c :: cs, p :: ps => c == p && startsWithCh cs ps

/-- `str::starts_with` for the `String`-typed addresses of the model. -/
def strStartsWith (s pat : String) : Bool :=
  startsWithCh s.data pat.data

/-- `midi_osc_logic.rs` line 222-225: first mapping whose `osc_address`
is a string prefix of the incoming address (`Iterator::find`). -/
def resolve_feedback (mappings : List MidiOscMapping)
    (addr : String) : Option MidiOscMapping :=
  mappings.find? (fun map => strStartsWith addr map.osc_address)

/-- `str::contains(substring)`: some suffix of `s` starts with `pat`. -/
def containsSubstr (s pat : String) : Bool :=
  (List.range (s.data.length + 1)).any (fun i => startsWithCh (s.data.drop i) pat.data)

/-- `str::split(sep)`: splits into the (always non-empty) list of pieces
between occurrences of `sep`. -/
def splitChar (sep : Char) : List Char → List (List Char)
  | [] => [[]]
  | c :: rest =>
    if c == sep then [] :: splitChar sep rest
    else
      match splitChar sep rest with
      | [] => [[c]]
      | piece :: pieces => (c :: piece) :: pieces

/-- `str::parse::<u8>()`: optional leading sign, non-empty digits, value
at most 255. -/
def parseU8 (l : List Char) : Option Nat :=
  let digits := match l with
    | '+' :: rest => rest
    | _ => l
  if digits ≠ [] ∧ digits.all Char.isDigit then
    let n := digits.foldl (fun acc c => acc * 10 + (c.toNat - 48)) 0
    if n ≤ 255 then some n else none
  else none

/-- `str::trim()`: strips leading and trailing whitespace. -/
def trimChar (l : List Char) : List Char :=
  ((l.dropWhile Char.isWhitespace).reverse.dropWhile Char.isWhitespace).reverse

/-- `midi_osc_logic.rs` line 29: `label.split(':').last().unwrap_or(label).trim()`. -/
def cleanLabelCh (label : String) : List Char :=
  trimChar (((splitChar ':' label.data).getLast?).getD label.data)

/-- `format!("\x7b: ^7\x7d", clean)`: pad with spaces to width 7,
center-aligned, excess padding on the right; longer strings are kept
unchanged. -/
def centerPad7Ch (l : List Char) : List Char :=
  if 7 ≤ l.length then l
  else
    List.replicate ((7 - l.length) / 2) ' ' ++ l
      ++ List.replicate ((7 - l.length) - (7 - l.length) / 2) ' '

/-- UTF-8 encoding of a single character (`str::as_bytes` per char). -/
def utf8Bytes (c : Char) : List Nat :=
  if c.toNat < 0x80 then [c.toNat]
  else if c.toNat < 0x800 then
    [0xC0 ||| (c.toNat >>> 6), 0x80 ||| (c.toNat &&& 0x3F)]
  else if c.toNat < 0x10000 then
    [0xE0 ||| (c.toNat >>> 12), 0x80 ||| ((c.toNat >>> 6) &&& 0x3F),
     0x80 ||| (c.toNat &&& 0x3F)]
  else
    [0xF0 ||| (c.toNat >>> 18), 0x80 ||| ((c.toNat >>> 12) &&& 0x3F),
     0x80 ||| ((c.toNat >>> 6) &&& 0x3F), 0x80 ||| (c.toNat &&& 0x3F)]

/-- `str::as_bytes`: the UTF-8 byte sequence of a character list. -/
def strBytesCh (l : List Char) : List Nat :=
  l.flatMap utf8Bytes

/-- `midi_osc_logic.rs` `send_mcu_label`: MCU Sysex header, offset byte
`(fader_idx.saturating_sub(1)) * 7` (u8 arithmetic, hence `% 256`),
the cleaned label centered to 7 characters, truncated to its first 7
bytes, and the `0xF7` terminator.  Returns the byte list handed to
`conn.send`. -/
def send_mcu_label (fader_idx : Nat) (label : String) : List Nat :=
  let offset := ((fader_idx - 1) * 7) % 256
  let clean := cleanLabelCh label
  let bytes := strBytesCh (centerPad7Ch clean)
  [0xF0, 0x00, 0x00, 0x66, 0x14, 0x12] ++ [offset]
    ++ bytes.take (min 7 bytes.length) ++ [0xF7]

/-- Every character encodes to at least one UTF-8 byte. -/
lemma utf8Bytes_length_pos (c : Char) : 0 < (utf8Bytes c).length := by
  unfold utf8Bytes
  by_cases h1 : c.toNat < 0x80 <;> by_cases h2 : c.toNat < 0x800 <;>
    by_cases h3 : c.toNat < 0x10000 <;> simp [h1, h2, h3]

/-- A character list yields at least as many UTF-8 bytes as characters. -/
lemma strBytesCh_length_ge (l : List Char) : l.length ≤ (strBytesCh l).length := by
  induction l with
  | nil => simp [strBytesCh]
  | cons c rest ih =>
    have hc := utf8Bytes_length_pos c
    simp only [strBytesCh, List.flatMap_cons, List.length_append, List.length_cons] at *
    omega

/-- Center-padding always produces at least 7 characters. -/
lemma centerPad7Ch_length (l : List Char) : 7 ≤ (centerPad7Ch l).length := by
  unfold centerPad7Ch
  split
  · assumption
  · simp only [List.length_append, List.length_replicate]
    omega

/-- C6: `resolve_control` is first-match-wins: on any mapping table that
decomposes as `pre ++ m :: post` where no mapping in `pre` matches the
`(event_type, data_number)` pair and `m` does, the resolver returns `m`
— regardless of any later duplicate in `post`. -/
theorem resolve_control_first_match (pre post : List MidiOscMapping)
    (m : MidiOscMapping) (etype : MidiEventType) (dnum : Nat)
    (hpre : ∀ m' ∈ pre, ¬(m'.event_type = etype ∧ m'.data_number = dnum))
    (hm : m.event_type = etype ∧ m.data_number = dnum) :
    resolve_control (pre ++ m :: post) etype dnum = some m := by
  induction pre with
  | nil =>
    simp only [resolve_control, List.nil_append, List.find?_cons]
    have : (m.event_type == etype && m.data_number == dnum) = true := by
      simp [hm.1, hm.2]
    rw [this]
  | cons a rest ih =>
    have ha : ¬(a.event_type = etype ∧ a.data_number = dnum) :=
      hpre a (List.mem_cons_self a rest)
    have hfalse : (a.event_type == etype && a.data_number == dnum) = false := by
      rcases Decidable.em (a.event_type = etype) with h | h
      · rcases Decidable.em (a.data_number = dnum) with h2 | h2
        · exact absurd ⟨h, h2⟩ ha
        · simp [h2]
      · simp [h]
    have hrest : ∀ m' ∈ rest, ¬(m'.event_type = etype ∧ m'.data_number = dnum) :=
      fun m' hm' => hpre m' (List.mem_cons_of_mem a hm')
    simpa only [resolve_control, List.cons_append, List.find?_cons, hfalse]
      using ih hrest

/-- Witness for C6: a table with a decoy first entry and two duplicate
`(PitchBend, 3)` mappings returns the earlier duplicate. -/
theorem resolve_control_first_match_witness :
    resolve_control
      [⟨MidiEventType.NoteOn, 46, "/eos/fader/1/page/-1", some 1⟩,
       ⟨MidiEventType.PitchBend, 3, "/eos/fader/1/3", none⟩,
       ⟨MidiEventType.PitchBend, 3, "/eos/fader/1/3/duplicate", none⟩]
      MidiEventType.PitchBend 3
      = some ⟨MidiEventType.PitchBend, 3, "/eos/fader/1/3", none⟩ :=
  resolve_control_first_match
    [⟨MidiEventType.NoteOn, 46, "/eos/fader/1/page/-1", some 1⟩]
    [⟨MidiEventType.PitchBend, 3, "/eos/fader/1/3/duplicate", none⟩]
    ⟨MidiEventType.PitchBend, 3, "/eos/fader/1/3", none⟩
    MidiEventType.PitchBend 3
    (by decide) (by decide)

example : ("ab".data = ['a', 'b']) := by decide

example : send_mcu_label 3 "Fader 3: Vox"
    = [0xF0, 0, 0, 0x66, 0x14, 0x12, 14, 32, 32, 86, 111, 120, 32, 32, 0xF7] := by decide

/-- C8 (amended): the display encoder produces a 15-byte frame: the
6-byte header, an offset byte equal to `((channel_index - 1) * 7) % 256`
(wrapping u8 arithmetic, equal to `(channel_index - 1) * 7` whenever
`channel_index ≤ 37`), the first 7 bytes of the cleaned label centered
in 7 characters, and the terminator `0xF7`. -/
theorem send_mcu_label_frame (idx : Nat) (label : String) (hidx : 1 ≤ idx) :
    send_mcu_label idx label
      = [0xF0, 0x00, 0x00, 0x66, 0x14, 0x12] ++ [((idx - 1) * 7) % 256]
        ++ (strBytesCh (centerPad7Ch (cleanLabelCh label))).take 7 ++ [0xF7]
    ∧ (send_mcu_label idx label).length = 15
    ∧ (idx ≤ 37 → ((idx - 1) * 7) % 256 = (idx - 1) * 7) := by
  have hb7 : 7 ≤ (strBytesCh (centerPad7Ch (cleanLabelCh label))).length :=
    le_trans (centerPad7Ch_length _) (strBytesCh_length_ge _)
  have hmin : min 7 (strBytesCh (centerPad7Ch (cleanLabelCh label))).length = 7 :=
    min_eq_left hb7
  refine ⟨?_, ?_, ?_⟩
  · simp only [send_mcu_label, hmin]
  · simp only [send_mcu_label, hmin, List.length_append, List.length_take,
      List.length_cons, List.length_nil]
  · intro h37
    have : (idx - 1) * 7 < 256 := by omega
    exact Nat.mod_eq_of_lt this

/-- Witness for C8: the amended frame shape evaluated at channel 3 with
label "Fader 3: Vox" (end-to-end scenario 4: offset 14, text centered). -/
theorem send_mcu_label_frame_witness :
    send_mcu_label 3 "Fader 3: Vox"
      = [0xF0, 0x00, 0x00, 0x66, 0x14, 0x12] ++ [((3 - 1) * 7) % 256]
        ++ (strBytesCh (centerPad7Ch (cleanLabelCh "Fader 3: Vox"))).take 7 ++ [0xF7]
    ∧ (send_mcu_label 3 "Fader 3: Vox").length = 15
    ∧ (3 ≤ 37 → ((3 - 1) * 7) % 256 = (3 - 1) * 7) :=
  send_mcu_label_frame 3 "Fader 3: Vox" (by decide)

/-- Counterexample for C8 as stated: at channel index 38 the offset byte
is `(37 * 7) % 256 = 3`, not `(38 - 1) * 7 = 259` — the u8 offset
computation wraps, so the frame does not carry `(channel_index - 1) * 7`
for every `channel_index ≥ 1`. -/
theorem send_mcu_label_offset_counterexample :
    ¬ ((send_mcu_label 38 "Vox")[6]? = some ((38 - 1) * 7)) := by decide

/-- The shared touch array `[false; 13]` (`midi_osc_logic.rs` line 95). -/
abbrev TouchState := Fin 13 → Bool

/-- Outward effects of the MIDI input callback: a `BridgeEvent` pushed
into the UI channel (`try_send`) or an OSC message sent over UDP. -/
inductive CallbackEffect
  | uiEvent (e : BridgeEvent)
  | oscSend (addr : String) (args : List OscValue)
deriving DecidableEq, Repr

/-- `midi_osc_logic.rs` lines 112-124: fader-touch handling.  For note
on/off status, notes 104-111 set slot `note - 103`, note 112 sets slot
9, to `is_touch = (status == 0x90 && velocity > 0)`. -/
def touchUpdate (touched : TouchState) (status note vel : Nat) : TouchState :=
  if status = 0x90 ∨ status = 0x80 then
    let is_touch : Bool := decide (status = 0x90 ∧ 0 < vel)
    if h : 104 ≤ note ∧ note ≤ 111 then
      Function.update touched ⟨note - 103, by omega⟩ is_touch
    else if note = 112 then
      Function.update touched ⟨9, by omega⟩ is_touch
    else touched
  else touched

/-- `midi_osc_logic.rs` lines 126-131: the `(event_type, data_number)`
derived from the status byte, or `none` for an unrecognized status
(which returns from the callback). -/
def derivedEvent (b0 b1 : Nat) : Option (MidiEventType × Nat) :=
  match b0 &&& 0xF0 with
  | 0xE0 => some (MidiEventType.PitchBend, (b0 &&& 0x0F) + 1)
  | 0x90 => some (MidiEventType.NoteOn, b1)
  | 0xB0 => some (MidiEventType.ControlChange, b1)
  | _ => none

/-- `midi_osc_logic.rs` lines 106-169: the MIDI input callback.
Messages shorter than 3 bytes are discarded; touch state is updated;
recognized events are published as `MidiCaptured`; a resolved mapping
sends an OSC message whose argument list depends on the event type.
Returns the new touch state and the ordered effect list. -/
def midiCallback (mappings : List MidiOscMapping) (touched : TouchState)
    (msg : List Nat) : TouchState × List CallbackEffect :=
  match msg with
  | b0 :: b1 :: b2 :: _ =>
    let status := b0 &&& 0xF0
    let touched2 := touchUpdate touched status b1 b2
    match derivedEvent b0 b1 with
    | none => (touched2, [])
    | some (etype, dnum) =>
      let captured :=
        CallbackEffect.uiEvent (BridgeEvent.MidiCaptured etype dnum (b0, b1, b2))
      match resolve_control mappings etype dnum with
      | none => (touched2, [captured])
      | some m =>
        let args : List OscValue :=
          match etype with
          | MidiEventType.PitchBend => [OscValue.float (((b2 * 128 + b1 : ℕ) : ℚ) / 16383)]
          | MidiEventType.ControlChange => [OscValue.float (((b2 : ℕ) : ℚ) / 127)]
          | MidiEventType.NoteOn =>
            match m.fixed_osc_value with
            | some v => [OscValue.float v]
            | none => []
        (touched2, [captured, CallbackEffect.oscSend m.osc_address args])
  | _ => (touched, [])

/-- The touch state returned by the callback is exactly `touchUpdate`
of the status nibble, independent of mapping resolution. -/
lemma midiCallback_fst (mappings : List MidiOscMapping) (touched : TouchState)
    (b0 b1 b2 : Nat) (rest : List Nat) :
    (midiCallback mappings touched (b0 :: b1 :: b2 :: rest)).1
      = touchUpdate touched (b0 &&& 0xF0) b1 b2 := by
  simp only [midiCallback]
  split
  · rfl
  · split
    · rfl
    · rfl

/-- Pointwise behaviour of `touchUpdate`. -/
lemma touchUpdate_apply (touched : TouchState) (status note vel : Nat) (j : Fin 13) :
    touchUpdate touched status note vel j =
      if (status = 0x90 ∨ status = 0x80) ∧
         ((104 ≤ note ∧ note ≤ 111 ∧ (j : ℕ) = note - 103) ∨ (note = 112 ∧ (j : ℕ) = 9))
      then decide (status = 0x90 ∧ 0 < vel)
      else touched j := by
  unfold touchUpdate
  by_cases hs : status = 0x90 ∨ status = 0x80
  · simp only [hs, if_true, true_and]
    by_cases hn : 104 ≤ note ∧ note ≤ 111
    · rw [dif_pos hn]
      by_cases hj : (j : ℕ) = note - 103
      · have hje : j = ⟨note - 103, by omega⟩ := Fin.ext hj
        rw [hje, Function.update_same, if_pos (Or.inl ⟨hn.1, hn.2, by simp⟩)]
      · have hne : j ≠ ⟨note - 103, by omega⟩ := by
          intro he
          exact hj (congrArg Fin.val he)
        rw [Function.update_noteq hne]
        have hcond : ¬((104 ≤ note ∧ note ≤ 111 ∧ (j : ℕ) = note - 103)
            ∨ (note = 112 ∧ (j : ℕ) = 9)) := by
          rintro (⟨_, _, h⟩ | ⟨h112, _⟩)
          · exact hj h
          · omega
        rw [if_neg hcond]
    · rw [dif_neg hn]
      by_cases h112 : note = 112
      · rw [if_pos h112]
        by_cases hj : (j : ℕ) = 9
        · have hje : j = ⟨9, by omega⟩ := Fin.ext hj
          rw [hje, Function.update_same, if_pos (Or.inr ⟨h112, by simp⟩)]
        · have hne : j ≠ ⟨9, by omega⟩ := by
            intro he
            exact hj (congrArg Fin.val he)
          rw [Function.update_noteq hne]
          have hcond : ¬((104 ≤ note ∧ note ≤ 111 ∧ (j : ℕ) = note - 103)
              ∨ (note = 112 ∧ (j : ℕ) = 9)) := by
            rintro (⟨hle, _, _⟩ | ⟨_, h⟩)
            · exact hn ⟨hle, by omega⟩
            · exact hj h
          rw [if_neg hcond]
      · rw [if_neg h112]
        have hcond : ¬((104 ≤ note ∧ note ≤ 111 ∧ (j : ℕ) = note - 103)
            ∨ (note = 112 ∧ (j : ℕ) = 9)) := by
          rintro (⟨hle, hge, _⟩ | ⟨h, _⟩)
          · exact hn ⟨hle, hge⟩
          · exact h112 h
        rw [if_neg hcond]
  · have hcond : ¬((status = 0x90 ∨ status = 0x80) ∧
        ((104 ≤ note ∧ note ≤ 111 ∧ (j : ℕ) = note - 103) ∨ (note = 112 ∧ (j : ℕ) = 9))) :=
      fun h => hs h.1
    rw [if_neg hs, if_neg hcond]

/-- C9: touch-state update rule.  For every 3-byte MIDI message, slot
`note - 103` is set for notes 104-111 and slot 9 for note 112, to
`is_touch = (status is note-on and velocity > 0)`; every other note and
every other slot is left unchanged, and non-note statuses change
nothing. -/
theorem touch_state_update (mappings : List MidiOscMapping) (touched : TouchState)
    (b0 b1 b2 : Nat) (rest : List Nat) (j : Fin 13) :
    (midiCallback mappings touched (b0 :: b1 :: b2 :: rest)).1 j =
      if ((b0 &&& 0xF0) = 0x90 ∨ (b0 &&& 0xF0) = 0x80) ∧
         ((104 ≤ b1 ∧ b1 ≤ 111 ∧ (j : ℕ) = b1 - 103) ∨ (b1 = 112 ∧ (j : ℕ) = 9))
      then decide ((b0 &&& 0xF0) = 0x90 ∧ 0 < b2)
      else touched j := by
  rw [midiCallback_fst, touchUpdate_apply]

/-- Counterexample for C4 as stated: the 3-byte note-off message
`[0x80, 104, 0]` has status nibble `0x80`, yet the callback publishes
no `MidiCaptured` event at all — the status match covers only `0xE0`,
`0x90` and `0xB0` and returns for everything else. -/
theorem note_off_unpublished_counterexample :
    (0x80 &&& 0xF0) = 0x80 ∧
    (midiCallback [] (fun _ => false) [0x80, 104, 0]).2 = [] :=
  ⟨rfl, rfl⟩

/-- C4 (amended): for every 3-byte MIDI message whose status nibble is
`0xE0`, `0x90` or `0xB0` (the statuses `derivedEvent` recognizes), a
`MidiCaptured` event carrying the derived event type, data number and
the three raw bytes is published first, regardless of whether a mapping
exists; status `0x80` (note-off) updates the touch state but publishes
nothing — no `MidiCaptured`, no OSC send. -/
theorem midi_captured_amended (mappings : List MidiOscMapping) (touched : TouchState)
    (b0 b1 b2 : Nat) (rest : List Nat) :
    (∀ etype dnum, derivedEvent b0 b1 = some (etype, dnum) →
      ((midiCallback mappings touched (b0 :: b1 :: b2 :: rest)).2).head?
        = some (CallbackEffect.uiEvent (BridgeEvent.MidiCaptured etype dnum (b0, b1, b2)))) ∧
    (derivedEvent b0 b1 = none →
      (midiCallback mappings touched (b0 :: b1 :: b2 :: rest)).2 = []) ∧
    ((b0 &&& 0xF0) = 0x80 →
      (midiCallback mappings touched (b0 :: b1 :: b2 :: rest)).2 = []) := by
  refine ⟨?_, ?_, ?_⟩
  · intro etype dnum hd
    simp only [midiCallback, hd]
    split
    · rfl
    · rfl
  · intro hd
    simp only [midiCallback, hd]
  · intro h80
    have hnone : derivedEvent b0 b1 = none := by
      unfold derivedEvent
      rw [h80]
    simp only [midiCallback, hnone]

/-- Witness for C4 (amended): note-on `[0x90, 46, 127]` publishes
`MidiCaptured(NoteOn, 46, raw)` first, and note-off `[0x80, 46, 127]`
publishes nothing. -/
theorem midi_captured_amended_witness :
    ((midiCallback [] (fun _ => false) [0x90, 46, 127]).2).head?
      = some (CallbackEffect.uiEvent
          (BridgeEvent.MidiCaptured MidiEventType.NoteOn 46 (0x90, 46, 127)))
    ∧ (midiCallback [] (fun _ => false) [0x80, 46, 127]).2 = [] :=
  ⟨(midi_captured_amended [] (fun _ => false) 0x90 46 127 []).1
      MidiEventType.NoteOn 46 (by rfl),
   (midi_captured_amended [] (fun _ => false) 0x80 46 127 []).2.2 (by rfl)⟩

/-- Effects of the OSC receive path: a MIDI byte string written to the
output connection (`midi_out.send`), or a `BridgeEvent` sent to the UI
channel. -/
inductive Effect
  | midiSend (bytes : List Nat)
  | event (e : BridgeEvent)
deriving DecidableEq, Repr

/-- Result of dispatching: the ordered effect list, and whether the
dispatcher panicked (Rust out-of-bounds array index). -/
structure StepOut where
  effects : List Effect
  panicked : Bool
deriving DecidableEq, Repr

/-- Sequencing two dispatch results: a panic cuts off everything after
it, otherwise effect lists concatenate in order. -/
def seqOut (a b : StepOut) : StepOut :=
  if a.panicked then a else ⟨a.effects ++ b.effects, b.panicked⟩

/-- `midi_osc_logic.rs` lines 202-243: handling of a single decoded OSC
message.  In order: a `ConnectionHeartbeat` for `/eos/out*` addresses;
the `/name` label branch (5th `/`-segment parsed as `u8`, raw string
forwarded as `LabelUpdate` and cleaned for the display); otherwise the
fader-feedback branch — resolve by address prefix, read the touch flag
at `data_number` (an out-of-bounds index 13.. panics), and when
untouched emit the pitch-bend bytes and a `FaderUpdate`. -/
def processMessage (mappings : List MidiOscMapping) (touched : TouchState)
    (msg : OscMessage) : StepOut :=
  let hb : List Effect :=
    if strStartsWith msg.addr "/eos/out/ping" || strStartsWith msg.addr "/eos/out" then
      [Effect.event BridgeEvent.ConnectionHeartbeat]
    else []
  if containsSubstr msg.addr "/name" then
    match (splitChar '/' msg.addr.data)[4]?, msg.args[0]? with
    | some idx_str, some (OscValue.str name) =>
      match parseU8 idx_str with
      | some idx =>
        ⟨hb ++ [Effect.event (BridgeEvent.LabelUpdate idx name),
                Effect.midiSend (send_mcu_label idx name)], false⟩
      | none => ⟨hb, false⟩
    | _, _ => ⟨hb, false⟩
  else
    match resolve_feedback mappings msg.addr with
    | some m =>
      match msg.args[0]? with
      | some (OscValue.float f) =>
        if h : m.data_number < 13 then
          if touched ⟨m.data_number, h⟩ then ⟨hb, false⟩
          else
            ⟨hb ++ [Effect.midiSend [0xE0 ||| ((m.data_number + 255) % 256),
                      float_to_pitch_bend f &&& 0x7F, float_to_pitch_bend f >>> 7],
                    Effect.event (BridgeEvent.FaderUpdate m.data_number f)], false⟩
        else ⟨hb, true⟩
      | _ => ⟨hb, false⟩
    | none => ⟨hb, false⟩

mutual

/-- `midi_osc_logic.rs` `process_packet`: a message is handled by
`processMessage`; a bundle recursively processes its contents in
order. -/
def processPacket (mappings : List MidiOscMapping) (touched : TouchState) :
    OscPacket → StepOut
  | OscPacket.message m => processMessage mappings touched m
  | OscPacket.bundle content => processPackets mappings touched content

/-- The `for content in bundle.content` loop of `process_packet`. -/
def processPackets (mappings : List MidiOscMapping) (touched : TouchState) :
    List OscPacket → StepOut
  | [] => ⟨[], false⟩
  | p :: rest =>
    seqOut (processPacket mappings touched p) (processPackets mappings touched rest)

end

mutual

/-- Depth-first, order-preserving flattening of a packet into its leaf
messages. -/
def flattenPacket : OscPacket → List OscMessage
  | OscPacket.message m => [m]
  | OscPacket.bundle content => flattenPackets content

/-- Depth-first flattening of a packet list. -/
def flattenPackets : List OscPacket → List OscMessage
  | [] => []
  | p :: rest => flattenPacket p ++ flattenPackets rest

end

/-- Sequential dispatch of a flat message list. -/
def processMsgs (mappings : List MidiOscMapping) (touched : TouchState) :
    List OscMessage → StepOut
  | [] => ⟨[], false⟩
  | m :: rest =>
    seqOut (processMessage mappings touched m) (processMsgs mappings touched rest)

/-- `midi_osc_logic.rs` lines 177-186: per received UDP datagram, a
`ConnectionHeartbeat` is sent first, then the payload is decoded
(`decoder::decode_udp`) and a successfully decoded packet is processed;
a failed decode produces nothing further.  `decoded` is the decoder's
result. -/
def handleDatagram (mappings : List MidiOscMapping) (touched : TouchState)
    (decoded : Option OscPacket) : StepOut :=
  let r : StepOut :=
    match decoded with
    | some p => processPacket mappings touched p
    | none => ⟨[], false⟩
  ⟨Effect.event BridgeEvent.ConnectionHeartbeat :: r.effects, r.panicked⟩

/-- A pitch-bend motor message: a MIDI send whose status byte has high
nibble `0xE0`. -/
def isPitchBendSend : Effect → Bool
  | Effect.midiSend (b :: _) => (b &&& 0xF0) == 0xE0
  | Effect.midiSend [] => false
  | Effect.event _ => false

/-- A `FaderUpdate` UI event. -/
def isFaderUpdate : Effect → Bool
  | Effect.event (BridgeEvent.FaderUpdate _ _) => true
  | _ => false

/-- The effects that motor-safety suppression must rule out: pitch-bend
motor messages and `FaderUpdate` events. -/
def suppressedKind (e : Effect) : Bool :=
  isPitchBendSend e || isFaderUpdate e

/-- The heartbeat effect list never contains a suppressed-kind effect. -/
lemma filter_suppressed_hb (c : Bool) :
    List.filter suppressedKind
      (if c then [Effect.event BridgeEvent.ConnectionHeartbeat] else []) = [] := by
  cases c <;> rfl

/-- C1: motor-safety suppression.  For every OSC message whose address
resolves via `resolve_feedback` to a mapping, whose first argument is a
float, and whose fader slot is currently touched, the dispatcher
produces no pitch-bend MIDI message and no `FaderUpdate` event — and
the model is stateless, so the dropped value is not buffered anywhere
for later replay. -/
theorem motor_suppression (mappings : List MidiOscMapping) (touched : TouchState)
    (msg : OscMessage) (m : MidiOscMapping) (f : ℚ)
    (hres : resolve_feedback mappings msg.addr = some m)
    (hf : msg.args[0]? = some (OscValue.float f))
    (hlt : m.data_number < 13)
    (htouch : touched ⟨m.data_number, hlt⟩ = true) :
    List.filter suppressedKind (processMessage mappings touched msg).effects = [] := by
  simp only [processMessage]
  rw [hf]
  split
  · cases hp : (splitChar '/' msg.addr.data)[4]? with
    | none => exact filter_suppressed_hb _
    | some s => exact filter_suppressed_hb _
  · simp only [hres]
    rw [dif_pos hlt, if_pos htouch]
    exact filter_suppressed_hb _

/-- Witness for C1: a touched fader with a resolved feedback message
yields no suppressed-kind effect. -/
theorem motor_suppression_witness :
    List.filter suppressedKind
      (processMessage [⟨MidiEventType.PitchBend, 2, "/eos/fader/1/2", none⟩]
        (fun _ => true) ⟨"/eos/fader/1/2", [OscValue.float 0]⟩).effects = [] :=
  motor_suppression [⟨MidiEventType.PitchBend, 2, "/eos/fader/1/2", none⟩]
    (fun _ => true) ⟨"/eos/fader/1/2", [OscValue.float 0]⟩
    ⟨MidiEventType.PitchBend, 2, "/eos/fader/1/2", none⟩ 0
    (by decide) (by decide) (by decide) (by decide)

/-- Counterexample for C2 as stated: a mapping with `data_number = 13`
(a value the data model permits) whose address matches an incoming
float-carrying message makes the dispatcher read `touched[13]` — out of
bounds for the 13-slot array, a panic. -/
theorem dispatcher_oob_counterexample :
    (processMessage [⟨MidiEventType.PitchBend, 13, "/x", none⟩] (fun _ => false)
        ⟨"/x", [OscValue.float 0]⟩).panicked = true := by decide

/-- C2 (amended): the feedback branch is total only on mapping tables
whose `data_number`s lie in 1..12: then the touch-state lookup never
leaves the 13-slot array (no panic), and for such values the wrapping
u8 computation `data_number - 1` agrees with ordinary subtraction in
the `0xE0` status byte. -/
theorem dispatcher_total_inrange (mappings : List MidiOscMapping) (touched : TouchState)
    (msg : OscMessage)
    (hrange : ∀ mp ∈ mappings, 1 ≤ mp.data_number ∧ mp.data_number ≤ 12) :
    (processMessage mappings touched msg).panicked = false
    ∧ ∀ mp ∈ mappings,
        0xE0 ||| ((mp.data_number + 255) % 256) = 0xE0 ||| (mp.data_number - 1) := by
  constructor
  · rcases hfb : resolve_feedback mappings msg.addr with _ | m2
    · simp only [processMessage, hfb]
      split
      · split <;> first | rfl | (split <;> rfl)
      · rfl
    · have hm : m2 ∈ mappings := by
        unfold resolve_feedback at hfb
        exact List.mem_of_find?_eq_some hfb
      have hlt : m2.data_number < 13 := by
        have h := hrange m2 hm
        omega
      rcases ha : msg.args[0]? with _ | arg
      · simp only [processMessage, hfb, ha]
        split
        · split <;> first | rfl | (split <;> rfl)
        · rfl
      · cases arg with
        | float f =>
          simp only [processMessage, hfb, ha]
          split
          · split <;> first | rfl | (split <;> rfl)
          · split <;> rfl
        | str s =>
          simp only [processMessage, hfb, ha]
          split
          · split <;> first | rfl | (split <;> rfl)
          · rfl
  · intro mp hmp
    have h := hrange mp hmp
    have h1 : (mp.data_number + 255) % 256 = mp.data_number - 1 := by omega
    rw [h1]

/-- Witness for C2 (amended): the default fader-1 mapping table with an
in-range data number neither panics nor wraps. -/
theorem dispatcher_total_inrange_witness :
    (processMessage [⟨MidiEventType.PitchBend, 1, "/eos/fader/1/1", none⟩] (fun _ => false)
        ⟨"/eos/fader/1/1", [OscValue.float 0]⟩).panicked = false
    ∧ ∀ mp ∈ [(⟨MidiEventType.PitchBend, 1, "/eos/fader/1/1", none⟩ : MidiOscMapping)],
        0xE0 ||| ((mp.data_number + 255) % 256) = 0xE0 ||| (mp.data_number - 1) :=
  dispatcher_total_inrange [⟨MidiEventType.PitchBend, 1, "/eos/fader/1/1", none⟩]
    (fun _ => false) ⟨"/eos/fader/1/1", [OscValue.float 0]⟩ (by decide)

/-- Counterexample for C3 as stated: the incoming label "Fader 3: Vox"
on a `/name` address for index 3 is forwarded raw — the dispatcher
emits `LabelUpdate(3, "Fader 3: Vox")`, not `LabelUpdate(3, "Vox")`;
only the display encoder applies the cleanup. -/
theorem label_update_counterexample :
    Effect.event (BridgeEvent.LabelUpdate 3 "Vox")
        ∉ (processMessage [] (fun _ => false)
            ⟨"/eos/out/fader/3/name", [OscValue.str "Fader 3: Vox"]⟩).effects
    ∧ Effect.event (BridgeEvent.LabelUpdate 3 "Fader 3: Vox")
        ∈ (processMessage [] (fun _ => false)
            ⟨"/eos/out/fader/3/name", [OscValue.str "Fader 3: Vox"]⟩).effects := by
  decide

/-- C3 (amended): for every OSC message whose address contains "/name",
whose fifth `/`-separated segment parses as a u8 index, and whose first
argument is a string, the dispatcher emits `LabelUpdate(index, raw_name)`
carrying the unmodified string, and forwards the raw string to the
display encoder `send_mcu_label`, which cleans it (text after the last
':' with whitespace trimmed) before building the Sysex frame. -/
theorem label_update_amended (mappings : List MidiOscMapping) (touched : TouchState)
    (msg : OscMessage) (idx_str : List Char) (name : String) (idx : Nat)
    (hn : containsSubstr msg.addr "/name" = true)
    (hseg : (splitChar '/' msg.addr.data)[4]? = some idx_str)
    (hparse : parseU8 idx_str = some idx)
    (harg : msg.args[0]? = some (OscValue.str name)) :
    (processMessage mappings touched msg).effects
      = (if strStartsWith msg.addr "/eos/out/ping" || strStartsWith msg.addr "/eos/out" then
          [Effect.event BridgeEvent.ConnectionHeartbeat] else [])
        ++ [Effect.event (BridgeEvent.LabelUpdate idx name),
            Effect.midiSend (send_mcu_label idx name)] := by
  simp only [processMessage]
  rw [if_pos hn]
  simp only [hseg, harg, hparse]

/-- Witness for C3 (amended): end-to-end scenario 4's input emits the
raw `LabelUpdate(3, "Fader 3: Vox")` plus the display frame. -/
theorem label_update_amended_witness :
    (processMessage [] (fun _ => false)
        ⟨"/eos/out/fader/3/name", [OscValue.str "Fader 3: Vox"]⟩).effects
      = (if strStartsWith "/eos/out/fader/3/name" "/eos/out/ping"
            || strStartsWith "/eos/out/fader/3/name" "/eos/out" then
          [Effect.event BridgeEvent.ConnectionHeartbeat] else [])
        ++ [Effect.event (BridgeEvent.LabelUpdate 3 "Fader 3: Vox"),
            Effect.midiSend (send_mcu_label 3 "Fader 3: Vox")] :=
  label_update_amended [] (fun _ => false)
    ⟨"/eos/out/fader/3/name", [OscValue.str "Fader 3: Vox"]⟩
    ['3'] "Fader 3: Vox" 3 (by decide) (by decide) (by decide) (by decide)

/-- C10: a `ConnectionHeartbeat` is emitted first for every received
datagram, before any OSC decoding — a datagram whose payload fails to
decode still produces exactly the heartbeat — and, in addition, every
decoded message whose address starts with "/eos/out" emits a further
heartbeat; so a heartbeat does not imply the console sent a
liveness/acknowledgement address. -/
theorem heartbeat_per_datagram (mappings : List MidiOscMapping) (touched : TouchState)
    (decoded : Option OscPacket) :
    (handleDatagram mappings touched decoded).effects.head?
      = some (Effect.event BridgeEvent.ConnectionHeartbeat)
    ∧ (handleDatagram mappings touched none).effects
      = [Effect.event BridgeEvent.ConnectionHeartbeat]
    ∧ (∀ msg : OscMessage, strStartsWith msg.addr "/eos/out" = true →
        (processMessage mappings touched msg).effects.head?
          = some (Effect.event BridgeEvent.ConnectionHeartbeat)) := by
  refine ⟨rfl, rfl, ?_⟩
  intro msg hs
  have hcond : (strStartsWith msg.addr "/eos/out/ping"
      || strStartsWith msg.addr "/eos/out") = true := by
    rw [hs, Bool.or_true]
  simp only [processMessage, hcond, if_true]
  repeat' split
  all_goals rfl

/-- Witness for C10: a bare "/eos/out/ping" message leads with a
heartbeat. -/
theorem heartbeat_per_datagram_witness :
    (processMessage [] (fun _ => false) ⟨"/eos/out/ping", []⟩).effects.head?
      = some (Effect.event BridgeEvent.ConnectionHeartbeat) :=
  (heartbeat_per_datagram [] (fun _ => false) none).2.2
    ⟨"/eos/out/ping", []⟩ (by decide)

/-- Sequencing a dispatch result with the empty result is the
identity. -/
lemma seqOut_nil_right (a : StepOut) : seqOut a ⟨[], false⟩ = a := by
  cases a with
  | mk es p => cases p <;> simp [seqOut]

/-- `seqOut` is associative. -/
lemma seqOut_assoc (a b c : StepOut) : seqOut (seqOut a b) c = seqOut a (seqOut b c) := by
  cases a with
  | mk ea pa =>
    cases b with
    | mk eb pb => cases pa <;> cases pb <;> simp [seqOut, List.append_assoc]

/-- Sequential dispatch splits over list concatenation. -/
lemma processMsgs_append (mappings : List MidiOscMapping) (touched : TouchState)
    (xs ys : List OscMessage) :
    processMsgs mappings touched (xs ++ ys)
      = seqOut (processMsgs mappings touched xs) (processMsgs mappings touched ys) := by
  induction xs with
  | nil =>
    simp only [List.nil_append, processMsgs, seqOut]
    cases h : processMsgs mappings touched ys with
    | mk es p => rfl
  | cons x xs ih =>
    simp only [List.cons_append, processMsgs, List.append_eq, ih, seqOut_assoc]

/-- Both mutual dispatchers agree with sequential dispatch of the
depth-first flattening, by strong induction on size. -/
lemma packet_flatten_aux (mappings : List MidiOscMapping) (touched : TouchState) :
    ∀ n : ℕ,
      (∀ p : OscPacket, sizeOf p ≤ n →
        processPacket mappings touched p = processMsgs mappings touched (flattenPacket p))
      ∧ (∀ l : List OscPacket, sizeOf l ≤ n →
        processPackets mappings touched l = processMsgs mappings touched (flattenPackets l)) := by
  intro n
  induction n with
  | zero =>
    constructor
    · intro p hp
      exfalso
      cases p <;> simp at hp
    · intro l hl
      cases l with
      | nil => rfl
      | cons p rest =>
        exfalso
        have hp0 : 0 < sizeOf p := by
          cases p <;> simp
        simp only [List.cons.sizeOf_spec] at hl
        omega
  | succ n ih =>
    constructor
    · intro p hp
      cases p with
      | message m =>
        simp only [processPacket, flattenPacket, processMsgs, seqOut_nil_right]
      | bundle content =>
        have hsz : sizeOf content ≤ n := by
          simp at hp
          omega
        simp only [processPacket, flattenPacket]
        exact ih.2 content hsz
    · intro l hl
      cases l with
      | nil => rfl
      | cons p rest =>
        have h1 : sizeOf p ≤ n := by
          simp at hl
          omega
        have h2 : sizeOf rest ≤ n := by
          simp at hl
          omega
        simp only [processPackets, flattenPackets, processMsgs_append]
        rw [ih.1 p h1, ih.2 rest h2]

/-- C7: bundle flattening is depth-first, order-preserving and
associative — dispatching any packet (bundles nested to any depth)
produces exactly the effect sequence of sequentially dispatching its
depth-first flattening into leaf messages; in particular a bundle
`[A, Bundle[B, C]]` behaves as the flat `[A, B, C]`. -/
theorem bundle_flatten (mappings : List MidiOscMapping) (touched : TouchState)
    (p : OscPacket) :
    processPacket mappings touched p = processMsgs mappings touched (flattenPacket p) :=
  (packet_flatten_aux mappings touched (sizeOf p)).1 p le_rfl
